import Mathlib

/-!
Verification of the retail SQL assistant's guardrail, rewrite, repair and
model-race pipeline.  Strings are embedded as `List Char`; each Python
string/regex operation used by the source is embedded as an executable
scanner on `List Char` that reproduces the behaviour of the specific
pattern on the specific call site (leftmost match, greedy character
classes, word boundaries, case-insensitive matching where the source uses
`re.I` or `.lower()`).
-/

namespace RetailAI

/-- Convert a string literal to the character-list representation. -/
def cs (s : String) : List Char := s.data

/-- ASCII lower-casing, as Python's `str.lower` acts on ASCII input. -/
def lowChar (c : Char) : Char :=
  if 'A' ≤ c ∧ c ≤ 'Z' then Char.ofNat (c.toNat + 32) else c

/-- Lower-case a whole string. -/
def lowStr (s : List Char) : List Char := s.map lowChar

/-- Word character in the sense of the regex `\w` / `\b` on ASCII text. -/
def isWordChar (c : Char) : Bool :=
  ('a' ≤ c ∧ c ≤ 'z') ∨ ('A' ≤ c ∧ c ≤ 'Z') ∨ ('0' ≤ c ∧ c ≤ '9') ∨ c = '_'

/-- Whitespace for Python's `str.strip` and the regex class `\s`. -/
def isWs (c : Char) : Bool :=
  c = ' ' ∨ c = '\t' ∨ c = '\n' ∨ c = '\r' ∨ c = Char.ofNat 11 ∨ c = Char.ofNat 12

/-- Python `str.lstrip()`. -/
def pyLstrip (s : List Char) : List Char := s.dropWhile isWs

/-- Python `str.rstrip()`. -/
def pyRstrip (s : List Char) : List Char := (s.reverse.dropWhile isWs).reverse

/-- Python `str.strip()`. -/
def pyStrip (s : List Char) : List Char := pyRstrip (pyLstrip s)

/-- `str.startswith((" ", "\n", "\t"))`, the exact tuple used at
`ensure_store_filter`'s separator decisions. -/
def startsWithSepWs (s : List Char) : Bool :=
  match s with
  | [] => false
  | c :: _ => c = ' ' ∨ c = '\n' ∨ c = '\t'

/-- `str.endswith((" ", "\n", "\t"))`. -/
def endsWithSepWs (s : List Char) : Bool := startsWithSepWs s.reverse

/-- Boundary test for `\b` on the character preceding the scan position
(the pattern's first character is a word character at every use site). -/
def boundaryPrev (prev : Option Char) : Bool :=
  match prev with
  | none => true
  | some c => ¬ isWordChar c

/-- Boundary test for `\b` after a word character, looking at the next
character (end of input counts as a boundary). -/
def boundaryNext (next : Option Char) : Bool :=
  match next with
  | none => true
  | some c => ¬ isWordChar c

/-- Case-insensitive literal prefix: consumes `lowStr w` from the front of
`s` comparing lower-cased characters, returning the rest of `s`.
`w` is given already lower-cased at every use site. -/
def eatLit : List Char → List Char → Option (List Char)
  | [], s => some s
  | _ :: _, [] => none
  | w :: ws, c :: s => if lowChar c = w then eatLit ws s else none

/-- Greedy `\s*`: drop leading whitespace. -/
def eatWsStar (s : List Char) : List Char := s.dropWhile isWs

/-- Greedy `\s+`: at least one whitespace character. -/
def eatWsPlus (s : List Char) : Option (List Char) :=
  match s with
  | [] => none
  | c :: rest => if isWs c then some (rest.dropWhile isWs) else none

/-- The regex class `[^']`. -/
def notQuote (c : Char) : Bool := ¬ (c = '\'')

/-- Greedy `[^']*` followed by a literal `'`. -/
def eatNonQuotesThenQuote (s : List Char) : Option (List Char) :=
  match s.dropWhile notQuote with
  | [] => none
  | _ :: rest => some rest   -- the dropped-to character is the quote

/-- Greedy `[a-z][a-z0-9_]*`: an alias/identifier token on lower-cased
text.  Returns the token and the rest. -/
def eatIdent (s : List Char) : Option (List Char × List Char) :=
  match s with
  | [] => none
  | c :: rest =>
    if 'a' ≤ c ∧ c ≤ 'z' then
      let tl := rest.takeWhile (fun d => ('a' ≤ d ∧ d ≤ 'z') ∨ ('0' ≤ d ∧ d ≤ '9') ∨ d = '_')
      some (c :: tl, rest.dropWhile (fun d => ('a' ≤ d ∧ d ≤ 'z') ∨ ('0' ≤ d ∧ d ≤ '9') ∨ d = '_'))
    else none

/-- Generic regex-style search: `m` is a match predicate taking the
character before the scan position (for `\b`) and the remaining text;
`anyScan` is `re.search`-as-a-Boolean, trying every position left to
right. -/
def anyScan (m : Option Char → List Char → Bool) : Option Char → List Char → Bool
  | _, [] => false
  | prev, c :: rest => m prev (c :: rest) || anyScan m (some c) rest

/-- Generic leftmost search returning the index of the first position
where `m` matches, scanning with the previous character for `\b`. -/
def findIdx (m : Option Char → List Char → Bool) : Option Char → Nat → List Char → Option Nat
  | _, _, [] => none
  | prev, i, c :: rest =>
    if m prev (c :: rest) then some i else findIdx m (some c) (i + 1) rest

/-- Generic leftmost match returning a captured value, as `re.search`
with a capture group. -/
def findCap {α : Type} (m : Option Char → List Char → Option α) :
    Option Char → List Char → Option α
  | _, [] => none
  | prev, c :: rest =>
    match m prev (c :: rest) with
    | some a => some a
    | none => findCap m (some c) rest

/-- Generic `re.finditer`: all non-overlapping matches left to right.
`m` returns a captured value together with the number of characters
consumed minus one (so a match always consumes at least one character);
scanning resumes after each match, with the last matched character as the
new previous character.  `fuel` bounds the recursion by the text length. -/
def scanAll {α : Type} (m : Option Char → List Char → Option (α × Nat × Char)) :
    Option Char → List Char → Nat → List α
  | _, _, 0 => []
  | _, [], _ => []
  | prev, c :: rest, fuel + 1 =>
    match m prev (c :: rest) with
    | some (a, k, lastC) => a :: scanAll m (some lastC) (List.drop (k + 1) (c :: rest)) fuel
    | none => scanAll m (some c) rest fuel

/-- Generic `re.sub`: replace every non-overlapping match of `m` by
`repl`, scanning the original text left to right (as `re.sub` does:
replacements never take part in later matches, and the `\b` context of a
later match is the original character before it). -/
def subGo (m : Option Char → List Char → Option (Nat × Char)) (repl : List Char) :
    Option Char → List Char → Nat → List Char
  | _, l, 0 => l
  | _, [], _ => []
  | prev, c :: rest, fuel + 1 =>
    match m prev (c :: rest) with
    | some (k, lastC) => repl ++ subGo m repl (some lastC) (List.drop (k + 1) (c :: rest)) fuel
    | none => c :: subGo m repl (some c) rest fuel

/-- Entry point of `subGo` with fresh boundary context and enough fuel. -/
def subAll (m : Option Char → List Char → Option (Nat × Char)) (repl : List Char)
    (s : List Char) : List Char :=
  subGo m repl none s s.length

/-- Whether `subAll` would replace anything: the same scan as `subGo`,
returning true as soon as a position matches. -/
def subHit (m : Option Char → List Char → Option (Nat × Char)) : Option Char → List Char → Bool
  | _, [] => false
  | prev, c :: rest =>
    match m prev (c :: rest) with
    | some _ => true
    | none => subHit m (some c) rest

/-- Plain (case-sensitive) prefix test. -/
def isPre : List Char → List Char → Bool
  | [], _ => true
  | _ :: _, [] => false
  | a :: as, b :: bs => a = b ∧ isPre as bs

/-- `\b w \b` at the current position, `w` a lower-cased word, matching
case-insensitively. -/
def matchWord (w : List Char) (prev : Option Char) (l : List Char) : Bool :=
  boundaryPrev prev &&
    (match eatLit w l with
     | some rest => boundaryNext rest.head?
     | none => false)

/-- `re.search(r"\b" + w + r"\b", s)` as a Boolean, `w` lower-cased,
matching case-insensitively against `s`. -/
def hasWord (w : List Char) (s : List Char) : Bool := anyScan (matchWord w) none s

/-- Plain substring containment (no boundaries), case-sensitive. -/
def containsSeq (pat : List Char) (s : List Char) : Bool :=
  anyScan (fun _ l => isPre pat l) none s

/-! ## Configuration from `settings.py` -/

/-- `settings.BAD_KEYWORDS` restricted to its alphabetic members, exactly
the `word_keywords` list `contains_bad` builds (the `";--"` sentinel is
filtered out by `isalpha`). -/
def badWords : List (List Char) :=
  [cs "update", cs "delete", cs "insert", cs "alter", cs "drop",
   cs "grant", cs "revoke", cs "truncate", cs "create", cs "copy",
   cs "call", cs "execute", cs "prepare", cs "deallocate", cs "explain",
   cs "vacuum", cs "analyze", cs "listen", cs "notify"]

/-- `(*settings.ALLOW_VIEWS, *settings.ALLOW_TABLES)` in tuple order. -/
def allowObjects : List (List Char) :=
  [cs "v_sales_daily", cs "v_promos_active",
   cs "stores", cs "brands", cs "products", cs "promotions", cs "sales_transactions"]

/-- `settings.COLUMNS`: the known column names of each allowed object. -/
def columnsOf (obj : List Char) : List (List Char) :=
  if obj = cs "v_sales_daily" then
    [cs "date", cs "promo_week_start_wed", cs "store_id", cs "article_no", cs "product_name",
     cs "brand", cs "category", cs "sub_category", cs "regular_price", cs "order_multiple",
     cs "base_demand", cs "is_high_velocity", cs "units_sold", cs "sale_price", cs "is_promo",
     cs "discount_pct", cs "promo_channel", cs "has_endcap", cs "on_promo_bay", cs "price_ratio"]
  else if obj = cs "v_promos_active" then
    [cs "promo_id", cs "article_no", cs "store_id", cs "start_date", cs "end_date",
     cs "active_date", cs "offer_type", cs "discount_pct", cs "promo_channel", cs "has_endcap",
     cs "on_promo_bay", cs "brand", cs "category", cs "sub_category"]
  else if obj = cs "sales_transactions" then
    [cs "date", cs "store_id", cs "article_no", cs "units_sold", cs "sale_price",
     cs "is_promo", cs "promo_id"]
  else if obj = cs "stores" then
    [cs "store_id", cs "store_name", cs "region", cs "store_type", cs "opening_date",
     cs "store_area_sqm"]
  else if obj = cs "brands" then
    [cs "brand", cs "category", cs "sub_category", cs "promo_allowed"]
  else if obj = cs "products" then
    [cs "article_no", cs "product_name", cs "brand", cs "category", cs "sub_category",
     cs "regular_price", cs "order_multiple", cs "base_demand", cs "is_high_velocity"]
  else if obj = cs "promotions" then
    [cs "promo_id", cs "article_no", cs "store_id", cs "start_date", cs "end_date",
     cs "offer_type", cs "discount_pct", cs "promo_channel", cs "has_endcap",
     cs "on_promo_bay", cs "brand", cs "category", cs "sub_category"]
  else []

/-! ## `guardrails.looks_select_only` -/

/-- `looks_select_only` from `guardrails.py`: strip surrounding
whitespace, remove at most one trailing `;` (plus the whitespace before
it), require a `select`/`with` start (case-insensitive) and no remaining
`;`. -/
def looks_select_only (sql : List Char) : Bool :=
  let s0 := pyStrip sql
  let s := if s0.getLast? = some ';' then pyRstrip s0.dropLast else s0
  let low := lowStr s
  if ¬ (isPre (cs "select") low ∨ isPre (cs "with") low) then false
  else if s.any (fun c => c = ';') then false
  else true

/-! ## `guardrails.contains_bad` -/

/-- `contains_bad` from `guardrails.py`: lower-case the text, reject on
the `";--"` sentinel, on any word-bounded blocklist keyword, or on the
word `copy`. -/
def contains_bad (sql : List Char) : Bool :=
  let s := lowStr sql
  if containsSeq (cs ";--") s then true
  else if badWords.any (fun kw => hasWord kw s) then true
  else if hasWord (cs "copy") s then true
  else false

/-! ## `guardrails.mentions_allowed_objects` -/

/-- `mentions_allowed_objects` from `guardrails.py`: at least one allowed
view/table name occurs as a whole word. -/
def mentions_allowed_objects (sql : List Char) : Bool :=
  let s := lowStr sql
  allowObjects.any (fun name => hasWord name s)

/-! ## `guardrails.columns_exist` -/

/-- One match of `\b<obj>\b\s+(?:as\s+)?([a-z][a-z0-9_]*)` at the current
position of the lower-cased text: the captured alias, consumed length
minus one and last consumed character.  The optional `as\s+` group is
tried greedily and dropped again if no alias follows it, as the regex
engine backtracks. -/
def matchAliasDef (obj : List Char) (prev : Option Char) (l : List Char) :
    Option (List Char × Nat × Char) :=
  if boundaryPrev prev then
    match eatLit obj l with
    | some r1 =>
      if boundaryNext r1.head? then
        match eatWsPlus r1 with
        | some r2 =>
          let viaAs : Option (List Char × List Char) :=
            match eatLit (cs "as") r2 with
            | some r3 =>
              match eatWsPlus r3 with
              | some r4 => eatIdent r4
              | none => none
            | none => none
          match viaAs with
          | some (a, rest) => some (a, l.length - rest.length - 1, a.getLastD ' ')
          | none =>
            match eatIdent r2 with
            | some (a, rest) => some (a, l.length - rest.length - 1, a.getLastD ' ')
            | none => none
        | none => none
      else none
    | none => none
  else none

/-- One match of `\b([a-z][a-z0-9_]*)\.(\*|[a-z][a-z0-9_]*)\b` at the
current position: captured (alias, column).  In the `*` branch the final
`\b` holds only if a word character follows the `*`. -/
def matchRef (prev : Option Char) (l : List Char) :
    Option ((List Char × List Char) × Nat × Char) :=
  if boundaryPrev prev then
    match eatIdent l with
    | some (a, r1) =>
      match r1 with
      | '.' :: r2 =>
        match r2 with
        | '*' :: r3 =>
          if (match r3.head? with | some c => isWordChar c | none => false) then
            some ((a, [Char.ofNat 42]), l.length - r3.length - 1, '*')
          else none
        | _ =>
          match eatIdent r2 with
          | some (col, r3) =>
            if boundaryNext r3.head? then
              some ((a, col), l.length - r3.length - 1, col.getLastD ' ')
            else none
          | none => none
      | _ => none
    | none => none
  else none

/-- Lexicographic comparison of strings by code point, Python's `<`. -/
def lexLt : List Char → List Char → Bool
  | [], [] => false
  | [], _ :: _ => true
  | _ :: _, [] => false
  | a :: as, b :: bs => if a.toNat < b.toNat then true else if a = b then lexLt as bs else false

/-- Insert into a sorted list of strings. -/
def insertSorted (x : List Char) : List (List Char) → List (List Char)
  | [] => [x]
  | y :: ys => if lexLt x y then x :: y :: ys else y :: insertSorted x ys

/-- `sorted(set(xs))`: the distinct members in lexicographic order. -/
def sortedDedup (xs : List (List Char)) : List (List Char) :=
  (xs.foldl (fun acc x => if acc.any (fun y => y = x) then acc else acc ++ [x]) []).foldl
    (fun acc x => insertSorted x acc) []

/-- The alias assignments `alias_of[m.group(1)] = obj` in execution
order: objects in tuple order, matches left to right. -/
def aliasAssignments (low : List Char) : List (List Char × List Char) :=
  allowObjects.flatMap fun obj =>
    (scanAll (matchAliasDef obj) none low low.length).map fun a => (a, obj)

/-- Dictionary lookup after all assignments: the last assignment wins. -/
def lookupAlias (assigns : List (List Char × List Char)) (a : List Char) :
    Option (List Char) :=
  (assigns.reverse.find? (fun p => p.1 = a)).map (fun p => p.2)

/-- `columns_exist` from `guardrails.py`: build the alias map from
`FROM`/`JOIN`-style occurrences of allowed objects, scan every
`alias.column` reference, and report all distinct problems sorted and
joined with `"; "`. -/
def columns_exist (sql : List Char) : Bool × Option (List Char) :=
  let low := lowStr sql
  let assigns := aliasAssignments low
  let refs := scanAll matchRef none low low.length
  let badRefs := refs.foldl
    (fun acc r =>
      match lookupAlias assigns r.1 with
      | none => acc ++ [cs "Undefined alias '" ++ r.1 ++ cs "'"]
      | some obj =>
        if r.2 = [Char.ofNat 42] then acc
        else if (columnsOf obj).any (fun c => c = r.2) then acc
        else acc ++ [r.1 ++ cs "." ++ r.2 ++ cs " not in " ++ obj])
    []
  if badRefs = [] then (true, none)
  else (false, some (List.intercalate (cs "; ") (sortedDedup badRefs)))

/-! ## `guardrails.ensure_store_filter` -/

/-- `\bstore_id\s*=\s*'[^']*'` at the current position of the lower-cased
text. -/
def matchStorePred (prev : Option Char) (l : List Char) : Bool :=
  boundaryPrev prev &&
    (match eatLit (cs "store_id") l with
     | some r1 =>
       match eatWsStar r1 with
       | '=' :: r2 =>
         match eatWsStar r2 with
         | '\'' :: r3 => (eatNonQuotesThenQuote r3).isSome
         | _ => false
       | _ => false
     | none => false)

/-- `re.search(r"\bstore_id\s*=\s*'[^']*'", low)` as a Boolean. -/
def findStoreIdPred (low : List Char) : Bool := anyScan matchStorePred none low

/-- One match of `\bfrom\s+<obj>\s+(?:as\s+)?([a-zA-Z][a-zA-Z0-9_]*)`,
capturing the alias, on the lower-cased text. -/
def matchFromAlias (obj : List Char) (prev : Option Char) (l : List Char) :
    Option (List Char) :=
  if boundaryPrev prev then
    match eatLit (cs "from") l with
    | some r0 =>
      match eatWsPlus r0 with
      | some r1 =>
        match eatLit obj r1 with
        | some r2 =>
          match eatWsPlus r2 with
          | some r3 =>
            let viaAs : Option (List Char × List Char) :=
              match eatLit (cs "as") r3 with
              | some r4 =>
                match eatWsPlus r4 with
                | some r5 => eatIdent r5
                | none => none
              | none => none
            match viaAs with
            | some (a, _) => some a
            | none =>
              match eatIdent r3 with
              | some (a, _) => some a
              | none => none
          | none => none
        | none => none
      | none => none
    | none => none
  else none

/-- Leftmost alias bound to `obj` via its `FROM` clause, as
`re.search` with one capture group. -/
def aliasAfterFrom (obj : List Char) (low : List Char) : Option (List Char) :=
  findCap (matchFromAlias obj) none low

/-- End index of the leftmost `\bwhere\b`, as `match.end()`. -/
def whereEndIdx (low : List Char) : Option Nat :=
  (findIdx (matchWord (cs "where")) none 0 low).map (fun i => i + 5)

/-- `group\s+by` / `order\s+by` with the final `\b`. -/
def matchTwoWords (w1 w2 : List Char) (l : List Char) : Bool :=
  match eatLit w1 l with
  | some r1 =>
    match eatWsPlus r1 with
    | some r2 =>
      match eatLit w2 r2 with
      | some r3 => boundaryNext r3.head?
      | none => false
    | none => false
  | none => false

/-- A single word alternative with the final `\b`. -/
def matchOneWord (w : List Char) (l : List Char) : Bool :=
  match eatLit w l with
  | some r => boundaryNext r.head?
  | none => false

/-- `\b(group\s+by|having|order\s+by|limit)\b` at the current position. -/
def matchTailKw (prev : Option Char) (l : List Char) : Bool :=
  boundaryPrev prev &&
    (matchTwoWords (cs "group") (cs "by") l || matchOneWord (cs "having") l ||
     matchTwoWords (cs "order") (cs "by") l || matchOneWord (cs "limit") l)

/-- Start index of the leftmost tail keyword. -/
def tailKwIdx (low : List Char) : Option Nat := findIdx matchTailKw none 0 low

/-- `ensure_store_filter` from `guardrails.py`: no-op when a
`store_id = '<value>'` predicate already occurs; otherwise build the
(alias-qualified, when the fact object's `FROM` alias is found) predicate
and splice it in after `WHERE`, before the first tail keyword, or at the
end. -/
def ensure_store_filter (sql : List Char) (store : List Char) : List Char :=
  let low := lowStr sql
  if findStoreIdPred low then sql
  else
    let al :=
      match aliasAfterFrom (cs "v_sales_daily") low with
      | some a => some a
      | none => aliasAfterFrom (cs "sales_transactions") low
    let pred :=
      match al with
      | some a => a ++ cs ".store_id = '" ++ store ++ cs "'"
      | none => cs "store_id = '" ++ store ++ cs "'"
    match whereEndIdx low with
    | some j =>
      let pre := sql.take j
      let tl := sql.drop j
      let sep : List Char := if startsWithSepWs tl then [] else [' ']
      pre ++ sep ++ pred ++ cs " AND (" ++ pyLstrip tl ++ cs ")"
    | none =>
      match tailKwIdx low with
      | some i =>
        let sp : List Char := if endsWithSepWs (sql.take i) then [] else [' ']
        sql.take i ++ sp ++ cs "WHERE " ++ pred ++ cs " " ++ sql.drop i
      | none =>
        let sep : List Char := if endsWithSepWs sql then [] else [' ']
        sql ++ sep ++ cs "WHERE " ++ pred

/-! ## `guardrails.ensure_limit` -/

/-- `\bsum\s*\(` and friends: an aggregate call head. -/
def matchFnCall (w : List Char) (l : List Char) : Bool :=
  match eatLit w l with
  | some r => (eatWsStar r).head? = some '('
  | none => false

/-- One alternative of the aggregate heuristic
`\bgroup\s+by\b|\bsum\s*\(|\bavg\s*\(|\bcount\s*\(|\bmax\s*\(|\bmin\s*\(`. -/
def matchAgg (prev : Option Char) (l : List Char) : Bool :=
  boundaryPrev prev &&
    (matchTwoWords (cs "group") (cs "by") l ||
     matchFnCall (cs "sum") l || matchFnCall (cs "avg") l || matchFnCall (cs "count") l ||
     matchFnCall (cs "max") l || matchFnCall (cs "min") l)

/-- The aggregate-shape test of `ensure_limit`. -/
def hasAggregate (low : List Char) : Bool := anyScan matchAgg none low

/-- `ensure_limit` from `guardrails.py`: right-strip, keep the text when
a `LIMIT` already occurs or the statement looks aggregating, otherwise
strip one trailing `;` and append `LIMIT <n>`. -/
def ensure_limit (sql : List Char) (defaultLimit : Nat) : List Char :=
  let s := pyRstrip sql
  let low := lowStr s
  if hasWord (cs "limit") low then s
  else if hasAggregate low then s
  else
    let s2 := if s.getLast? = some ';' then pyRstrip s.dropLast else s
    s2 ++ cs " LIMIT " ++ cs (Nat.repr defaultLimit)

/-! ## `guardrails.replace_current_date` -/

/-- Substitution matcher for `\b<w>\b` with `re.I`. -/
def subWordMatcher (w : List Char) (prev : Option Char) (l : List Char) :
    Option (Nat × Char) :=
  if matchWord w prev l then some (w.length - 1, l.getD (w.length - 1) ' ') else none

/-- Substitution matcher for `\bnow\(\)` (no trailing boundary). -/
def subNowMatcher (prev : Option Char) (l : List Char) : Option (Nat × Char) :=
  if boundaryPrev prev && (eatLit (cs "now()") l).isSome then some (4, l.getD 4 ' ')
  else none

/-- Substitution matcher for `\bcurrent_timestamp\s*::\s*date\b`. -/
def matchCtsDate (prev : Option Char) (l : List Char) : Option (Nat × Char) :=
  if boundaryPrev prev then
    match eatLit (cs "current_timestamp") l with
    | some r1 =>
      match eatWsStar r1 with
      | ':' :: ':' :: r2 =>
        match eatLit (cs "date") (eatWsStar r2) with
        | some r3 =>
          if boundaryNext r3.head? then
            some (l.length - r3.length - 1, l.getD (l.length - r3.length - 1) ' ')
          else none
        | none => none
      | _ => none
    | none => none
  else none

/-- Substitution matcher for `date_trunc\(\s*'day'\s*,\s*now\(\)\s*\)`
(no word boundaries). -/
def matchDateTrunc (_prev : Option Char) (l : List Char) : Option (Nat × Char) :=
  match eatLit (cs "date_trunc(") l with
  | some r1 =>
    match eatLit (cs "'day'") (eatWsStar r1) with
    | some r2 =>
      match eatWsStar r2 with
      | ',' :: r3 =>
        match eatLit (cs "now()") (eatWsStar r3) with
        | some r4 =>
          match eatWsStar r4 with
          | ')' :: r5 => some (l.length - r5.length - 1, ')')
          | _ => none
        | none => none
      | _ => none
    | none => none
  | none => none

/-- `replace_current_date` from `guardrails.py`: with a falsy anchor the
text is returned unchanged; otherwise the five temporal patterns are
substituted in order and `none` is returned when nothing changed
(the Python function returns `None` in that case). -/
def replace_current_date (sql : List Char) (base : Option (List Char)) :
    Option (List Char) :=
  match base with
  | none => some sql
  | some d =>
    if d = [] then some sql
    else
      let rDate := cs "'" ++ d ++ cs "'::date"
      let rTs := cs "'" ++ d ++ cs "'::timestamp"
      let s1 := subAll (subWordMatcher (cs "current_date")) rDate sql
      let s2 := subAll subNowMatcher rTs s1
      let s3 := subAll (subWordMatcher (cs "current_timestamp")) rTs s2
      let s4 := subAll matchCtsDate rDate s3
      let s5 := subAll matchDateTrunc rTs s4
      if s5 = sql then none else some s5

/-! ## `guardrails.extract_sql` -/

/-- The characters before the first closing triple backtick, `none` when
no closing fence follows (the lazy `(.*?)` of the fence pattern). -/
def findCloseFence : List Char → Option (List Char)
  | [] => none
  | c :: rest =>
    if isPre (cs "```") (c :: rest) then some []
    else (findCloseFence rest).map (fun inner => c :: inner)

/-- A fenced block starting here: ```` ```sql <inner> ``` ````
(case-insensitive on the `sql` tag, `re.S` so the inner text may span
lines). -/
def matchFenceAt (l : List Char) : Option (List Char) :=
  match eatLit (cs "```sql") l with
  | some r => findCloseFence r
  | none => none

/-- `extract_sql` from `guardrails.py`: first fenced `sql` block, else
from the first word-bounded `select` to the end of the text, stripped;
`none` when neither matches. -/
def extract_sql (text : List Char) : Option (List Char) :=
  match findCap (fun _ l => matchFenceAt l) none text with
  | some inner => some (pyStrip inner)
  | none =>
    match findIdx (matchWord (cs "select")) none 0 text with
    | some i => some (pyStrip (text.drop i))
    | none => none

/-! ## `guardrails.grounding_score` -/

/-- `grounding_score` from `guardrails.py`: one point each for an
extracted candidate, a passing shape check, and a mention of an allowed
object (the empty extraction is falsy in Python). -/
def grounding_score (answer : List Char) : Nat :=
  let sql := (extract_sql answer).getD []
  let hasSql := sql ≠ []
  let okShape := if hasSql then looks_select_only sql else false
  let ment := if hasSql then mentions_allowed_objects sql else false
  (if hasSql then 1 else 0) + (if okShape then 1 else 0) + (if ment then 1 else 0)

/-! ## `guardrails.repair_known_errors` -/

/-- `\bw1\b.*\bw2\b` with `re.S`: some bounded occurrence of `w1`
followed (at or after its end) by a bounded occurrence of `w2`. -/
def twoWordSearch (w1 w2 : List Char) : Option Char → List Char → Bool
  | _, [] => false
  | prev, c :: rest =>
    (matchWord w1 prev (c :: rest) &&
      anyScan (matchWord w2) (some ((c :: rest).getD (w1.length - 1) ' '))
        (List.drop w1.length (c :: rest))) ||
    twoWordSearch w1 w2 (some c) rest

/-- Substitution matcher for
`\bcount\s*\(\s*distinct\s*s\.promo_id\s*\)` with `re.I`. -/
def matchCountDistinct (prev : Option Char) (l : List Char) : Option (Nat × Char) :=
  if boundaryPrev prev then
    match eatLit (cs "count") l with
    | some r1 =>
      match eatWsStar r1 with
      | '(' :: r2 =>
        match eatLit (cs "distinct") (eatWsStar r2) with
        | some r3 =>
          match eatLit (cs "s.promo_id") (eatWsStar r3) with
          | some r4 =>
            match eatWsStar r4 with
            | ')' :: r5 => some (l.length - r5.length - 1, ')')
            | _ => none
          | none => none
        | none => none
      | _ => none
    | none => none
  else none

/-- `repair_known_errors` from `guardrails.py`: two pattern-matched
deterministic fixes; `none` when neither changed the text. -/
def repair_known_errors (sql err : List Char) : Option (List Char) :=
  let errLow := lowStr err
  let s1 :=
    if containsSeq (cs "column s.promo_id does not exist") errLow &&
        twoWordSearch (cs "v_promos_active") (cs "pa") none sql then
      subAll matchCountDistinct (cs "COUNT(DISTINCT pa.promo_id)") sql
    else sql
  let s3 :=
    if hasWord (cs "p.brand") s1 && twoWordSearch (cs "v_sales_daily") (cs "s") none s1 then
      subAll (subWordMatcher (cs "p.brand")) (cs "s.brand") s1
    else s1
  if s3 = sql then none else some s3

/-! ## `query_service.run_query`: the execution-and-repair pipeline

The pipeline is modelled as a deterministic trace function over an
oracle supplying the race winner's raw text, the Execution Gateway's
outcome per statement, and the raw text of the one-shot repair race.
The trace records every SQL string passed to `dbx.run_sql`, how often the
deterministic fixer and the repair race were invoked, and which path
finished the call. -/

/-- The three guardrail stages re-run on repaired text at
`query_service.py` lines 62 and 85 (shape, blocklist, allow-list; the
column check is not among them). -/
def checks3 (s : List Char) : Bool :=
  looks_select_only s && !contains_bad s && mentions_allowed_objects s

/-- All four guardrail stages, as run on the extracted winner text at
`query_service.py` lines 40–48. -/
def checks4 (s : List Char) : Bool := checks3 s && (columns_exist s).1

/-- The rewrite sequence of `query_service.py` lines 51–55 (repeated at
63–67 and 86–90): store-scope injection, result-size capping with the
default limit 200, then temporal anchoring, keeping the previous text
when `replace_current_date` returns a falsy value. -/
def rewriteAll (store : List Char) (anchor : Option (List Char)) (s : List Char) :
    List Char :=
  let a := ensure_store_filter s store
  let b := ensure_limit a 200
  match replace_current_date b anchor with
  | some c => if c = [] then b else c
  | none => b

/-- The collaborators `run_query` consults, as a deterministic oracle. -/
structure Oracle where
  winnerText : List Char
  exec : List Char → Except (List Char) Unit
  repairText : List Char

/-- Which branch of `run_query` finished the call. -/
inductive RunPath
  | aborted
  | firstOk
  | detPath
  | llmPath
  | llmAbort
  deriving DecidableEq, Repr

/-- Observable trace of one `run_query` call: the statements passed to
`dbx.run_sql` in order, the number of `repair_known_errors` invocations,
the number of repair races, the finishing branch and overall success. -/
structure Trace where
  executed : List (List Char)
  detFixCalls : Nat
  llmCalls : Nat
  path : RunPath
  ok : Bool
  deriving DecidableEq, Repr

/-- Second (and final) execution attempt after a deterministic fix. -/
def detExec (store : List Char) (anchor : Option (List Char)) (safe f : List Char) :
    Except (List Char) Unit → Trace
  | .ok _ => ⟨[safe, rewriteAll store anchor f], 1, 0, .detPath, true⟩
  | .error _ => ⟨[safe, rewriteAll store anchor f], 1, 0, .detPath, false⟩

/-- Second (and final) execution attempt after the model-assisted
repair. -/
def llmExec (store : List Char) (anchor : Option (List Char)) (safe r : List Char) :
    Except (List Char) Unit → Trace
  | .ok _ => ⟨[safe, rewriteAll store anchor r], 1, 1, .llmPath, true⟩
  | .error _ => ⟨[safe, rewriteAll store anchor r], 1, 1, .llmPath, false⟩

/-- The model-assisted branch of `run_query` (lines 70–94): extract the
repair race's candidate, re-run the three guardrail stages, rewrite and
execute once; otherwise re-raise. -/
def llmBranch (store : List Char) (anchor : Option (List Char)) (o : Oracle)
    (safe : List Char) : Trace :=
  let r := (extract_sql o.repairText).getD []
  if r ≠ [] && checks3 r then
    llmExec store anchor safe r (o.exec (rewriteAll store anchor r))
  else ⟨[safe], 1, 1, .llmAbort, false⟩

/-- Dispatch on the deterministic fixer's result (lines 61–70): a
changed text must re-pass the three stages, else fall through to the
model-assisted branch — the fixer is never retried. -/
def afterRepair (store : List Char) (anchor : Option (List Char)) (o : Oracle)
    (safe : List Char) : Option (List Char) → Trace
  | some f =>
    if f ≠ [] && checks3 f then
      detExec store anchor safe f (o.exec (rewriteAll store anchor f))
    else llmBranch store anchor o safe
  | none => llmBranch store anchor o safe

/-- Dispatch on the first execution attempt (lines 57–60). -/
def afterExec (store : List Char) (anchor : Option (List Char)) (o : Oracle)
    (safe : List Char) : Except (List Char) Unit → Trace
  | .ok _ => ⟨[safe], 0, 0, .firstOk, true⟩
  | .error e => afterRepair store anchor o safe (repair_known_errors safe e)

/-- The pipeline after the guardrails pass (lines 50–94). -/
def execPhase (store : List Char) (anchor : Option (List Char)) (o : Oracle)
    (sql : List Char) : Trace :=
  afterExec store anchor o (rewriteAll store anchor sql)
    (o.exec (rewriteAll store anchor sql))

/-- `run_query` from `query_service.py` as a trace function: guardrails
on the extracted text, rewrite, execute; on failure one deterministic
fix attempt re-validated by the three re-run stages, else one
model-assisted repair, re-validated the same way, each followed by the
rewrite sequence and at most one further execution. -/
def runQueryTrace (store : List Char) (anchor : Option (List Char)) (o : Oracle) : Trace :=
  let sql := (extract_sql o.winnerText).getD []
  if sql = [] then ⟨[], 0, 0, .aborted, false⟩
  else if ¬ looks_select_only sql then ⟨[], 0, 0, .aborted, false⟩
  else if contains_bad sql then ⟨[], 0, 0, .aborted, false⟩
  else if ¬ mentions_allowed_objects sql then ⟨[], 0, 0, .aborted, false⟩
  else if ¬ (columns_exist sql).1 then ⟨[], 0, 0, .aborted, false⟩
  else execPhase store anchor o sql

/-! ## `llm_openrouter`: retry, gather, scoring and winner selection -/

/-- One provider's response: raw text plus the latency and cost derived
from the usage metrics. -/
structure RaceResult where
  text : List Char
  latency : Nat
  cost : ℚ
  deriving DecidableEq

/-- A scored trial, as `try_models` attaches `r["score"]`. -/
structure Trial where
  text : List Char
  latency : Nat
  cost : ℚ
  score : Nat
  deriving DecidableEq

/-- Scoring a settled result with the grounding heuristic. -/
def attachScore (r : RaceResult) : Trial :=
  ⟨r.text, r.latency, r.cost, grounding_score r.text⟩

/-- `call_openrouter_sync`'s retry loop over the backoff schedule
`[0.4, 0.8, 1.6]`: attempts `0..3`; the first success wins, the fourth
failure is raised.  `attempts` is the transport oracle for one
provider. -/
def callRetryGo (attempts : Nat → Except (List Char) RaceResult) :
    Nat → Nat → Except (List Char) RaceResult
  | i, 0 => attempts i
  | i, k + 1 =>
    match attempts i with
    | .ok r => .ok r
    | .error _ => callRetryGo attempts (i + 1) k

/-- The bounded retry of `call_openrouter_sync`: four attempts. -/
def callRetry (attempts : Nat → Except (List Char) RaceResult) :
    Except (List Char) RaceResult :=
  callRetryGo attempts 0 3

/-- `asyncio.gather` without `return_exceptions`: all results in order,
or the propagated exception of a failed task (list order stands in for
the chronological order in which exceptions surface).  A failure
yields no result list at all. -/
def gatherE : List (Except (List Char) RaceResult) →
    Except (List Char) (List RaceResult)
  | [] => .ok []
  | .error e :: _ => .error e
  | .ok r :: rest => (gatherE rest).map (fun l => r :: l)

/-- The sort key of `try_models`: `(-score, cost, latency)` under the
default `cheapest` policy, `(-score, latency, cost)` under `fastest`. -/
def raceKey (pref : List Char) (t : Trial) : ℤ × ℚ × ℚ :=
  if pref = cs "fastest" then (-(t.score : ℤ), (t.latency : ℚ), t.cost)
  else (-(t.score : ℤ), t.cost, (t.latency : ℚ))

/-- Strict lexicographic comparison of sort keys. -/
def keyLt (a b : ℤ × ℚ × ℚ) : Prop :=
  a.1 < b.1 ∨ (a.1 = b.1 ∧ (a.2.1 < b.2.1 ∨ (a.2.1 = b.2.1 ∧ a.2.2 < b.2.2)))

instance (a b : ℤ × ℚ × ℚ) : Decidable (keyLt a b) := by
  unfold keyLt
  infer_instance

/-- `sorted(results, key=sort_key)[0]`: the first trial attaining the
minimal key (Python's sort is stable, so ties keep list order). -/
def pickWinner (pref : List Char) : List Trial → Option Trial
  | [] => none
  | h :: t =>
    some (t.foldl (fun w x => if keyLt (raceKey pref x) (raceKey pref w) then x else w) h)

/-- `try_models` from `llm_openrouter.py`: one bounded-retry call per
configured provider gathered concurrently, each settled result scored,
the winner selected by the policy's key; a single provider's exhaustion
propagates out of the gather as the race's failure. -/
def tryModels (providers : List (Nat → Except (List Char) RaceResult)) (pref : List Char) :
    Except (List Char) (Option Trial × List Trial) :=
  match gatherE (providers.map callRetry) with
  | .error e => .error e
  | .ok rs =>
    let trials := rs.map attachScore
    .ok (pickWinner pref trials, trials)

/-! ## Helper lemmas about the scanners -/

/-- If no position matches, `re.sub` leaves the text unchanged. -/
theorem subGo_of_no_hit (m : Option Char → List Char → Option (Nat × Char))
    (repl : List Char) :
    ∀ (l : List Char) (prev : Option Char) (fuel : Nat),
      subHit m prev l = false → subGo m repl prev l fuel = l := by
  intro l
  induction l with
  | nil => intro prev fuel _; cases fuel <;> rfl
  | cons c rest ih =>
    intro prev fuel h
    cases fuel with
    | zero => rfl
    | succ n =>
      cases hm : m prev (c :: rest) with
      | some v => simp [subHit, hm] at h
      | none =>
        have h2 : subHit m (some c) rest = false := by
          simpa [subHit, hm] using h
        simp [subGo, hm, ih (some c) n h2]

/-- `subAll` specialisation of `subGo_of_no_hit`. -/
theorem subAll_of_no_hit (m : Option Char → List Char → Option (Nat × Char))
    (repl : List Char) (s : List Char) (h : subHit m none s = false) :
    subAll m repl s = s :=
  subGo_of_no_hit m repl s none s.length h

/-- Whether any of the five temporal patterns of `replace_current_date`
matches anywhere in the text. -/
def hasTemporalPattern (s : List Char) : Bool :=
  subHit (subWordMatcher (cs "current_date")) none s ||
  subHit subNowMatcher none s ||
  subHit (subWordMatcher (cs "current_timestamp")) none s ||
  subHit matchCtsDate none s ||
  subHit matchDateTrunc none s

/-! ## Claims C3, C8, C9, C10 -/

set_option maxRecDepth 40000

/-- Claim C3: on a statement whose `WHERE` clause is followed by a tail
clause, `ensure_store_filter` parenthesises everything after `WHERE` up
to the end of the statement — the `ORDER BY` clause included — and
splices the predicate directly against the `WHERE` keyword with no
separator, instead of wrapping only the original predicate; the
no-`WHERE` branch inserts the predicate before the first tail keyword as
described. -/
theorem C3_where_branch_eval :
    ensure_store_filter
        (cs "select store_name from stores where region = 'X' order by store_name")
        (cs "S001") =
      cs "select store_name from stores wherestore_id = 'S001' AND (region = 'X' order by store_name)" ∧
    ensure_store_filter (cs "select units_sold from v_sales_daily s order by date")
        (cs "S001") =
      cs "select units_sold from v_sales_daily s WHERE s.store_id = 'S001' order by date" := by
  constructor
  · decide
  · decide

/-- Claim C8: the column/alias check rejects an undefined alias with the
expected detail, accepts a defined alias with a known column, and when
several distinct problems are recorded it reports them all, sorted and
joined, not just the first. -/
theorem C8_columns_exist_eval :
    columns_exist (cs "SELECT z.foo FROM stores s") =
      (false, some (cs "Undefined alias 'z'")) ∧
    columns_exist (cs "SELECT s.store_id FROM stores s") = (true, none) ∧
    columns_exist (cs "select z.foo, s.nope from stores s") =
      (false, some (cs "Undefined alias 'z'; s.nope not in stores")) := by
  refine ⟨by decide, by decide, by decide⟩

/-- Claim C9: with anchor `2024-12-01` the transform rewrites
`CURRENT_DATE` to the anchored date literal, and with a falsy anchor
(`None` or the empty string) every text is returned unchanged. -/
theorem C9_temporal_anchoring :
    replace_current_date
        (cs "SELECT units_sold FROM v_sales_daily WHERE date = CURRENT_DATE")
        (some (cs "2024-12-01")) =
      some (cs "SELECT units_sold FROM v_sales_daily WHERE date = '2024-12-01'::date") ∧
    (∀ s : List Char, replace_current_date s none = some s) ∧
    (∀ s : List Char, replace_current_date s (some []) = some s) := by
  refine ⟨by decide, fun s => rfl, fun s => rfl⟩

/-- Claim C10: with a non-empty anchor, a text containing none of the
five rewritable temporal patterns yields `none` (Python `None`), not the
unchanged text; and a returned string means the text changed, unless the
anchor was falsy, in which case the text itself is returned. -/
theorem C10_none_when_unchanged :
    (∀ s d : List Char, d ≠ [] → hasTemporalPattern s = false →
        replace_current_date s (some d) = none) ∧
    (∀ (s : List Char) (b : Option (List Char)) (t : List Char),
        replace_current_date s b = some t → t ≠ s ∨ b = none ∨ b = some []) := by
  constructor
  · intro s d hd hp
    simp only [hasTemporalPattern, Bool.or_eq_false_iff] at hp
    obtain ⟨⟨⟨⟨h1, h2⟩, h3⟩, h4⟩, h5⟩ := hp
    unfold replace_current_date
    dsimp only
    rw [if_neg hd]
    rw [subAll_of_no_hit _ _ _ h1, subAll_of_no_hit _ _ _ h2, subAll_of_no_hit _ _ _ h3,
        subAll_of_no_hit _ _ _ h4, subAll_of_no_hit _ _ _ h5]
    simp
  · intro s b t h
    match b with
    | none =>
      right; left; rfl
    | some d =>
      by_cases hd : d = []
      · right; right; rw [hd]
      · left
        unfold replace_current_date at h
        dsimp only at h
        rw [if_neg hd] at h
        by_cases h5 :
            subAll matchDateTrunc (cs "'" ++ d ++ cs "'::timestamp")
              (subAll matchCtsDate (cs "'" ++ d ++ cs "'::date")
                (subAll (subWordMatcher (cs "current_timestamp")) (cs "'" ++ d ++ cs "'::timestamp")
                  (subAll subNowMatcher (cs "'" ++ d ++ cs "'::timestamp")
                    (subAll (subWordMatcher (cs "current_date")) (cs "'" ++ d ++ cs "'::date") s)))) = s
        · rw [if_pos h5] at h
          exact absurd h (by simp)
        · rw [if_neg h5] at h
          intro hts
          exact h5 ((Option.some.inj h).trans hts)

/-- Witness for C10: a pattern-free statement with a real anchor maps to
`none`. -/
theorem C10_witness :
    replace_current_date (cs "select units_sold from v_sales_daily") (some (cs "2024-12-01")) =
      none :=
  C10_none_when_unchanged.1 _ _ (by decide) (by decide)

/-! ## Claim C4: the shape check -/

/-- The acceptance condition exactly as claim C4 words it: strip at most
one trailing terminator from the text as given, then accept iff the
remaining text begins with `select`/`with` (case-insensitively) and
contains no further terminator.  (Stated from the claim for comparison;
the code additionally strips surrounding whitespace.) -/
def shapeAcceptPerClaim (s : List Char) : Bool :=
  let s1 := if s.getLast? = some ';' then s.dropLast else s
  (isPre (cs "select") (lowStr s1) || isPre (cs "with") (lowStr s1)) &&
    !(s1.any (fun c => c = ';'))

/-- The terminator-stripping step of `looks_select_only`: one trailing
`;` and the whitespace before it. -/
def stripOneTerm (u : List Char) : List Char :=
  if u.getLast? = some ';' then pyRstrip u.dropLast else u

/-- Counterexample to claim C4 as stated: the code strips leading
whitespace before testing the `select` prefix, so a statement preceded
by blanks is accepted although it does not begin with `select`. -/
theorem C4_counterexample :
    looks_select_only (cs "  select 1") = true ∧
      shapeAcceptPerClaim (cs "  select 1") = false := by
  refine ⟨by decide, by decide⟩

/-- Right-stripping whitespace does not change the number of `;`. -/
theorem count_semi_pyRstrip (x : List Char) :
    (pyRstrip x).count ';' = x.count ';' := by
  have hsplit : x.reverse.takeWhile isWs ++ x.reverse.dropWhile isWs = x.reverse :=
    List.takeWhile_append_dropWhile isWs x.reverse
  have htw : (x.reverse.takeWhile isWs).count ';' = 0 := by
    rw [List.count_eq_zero]
    intro hm
    exact absurd (List.mem_takeWhile_imp hm) (by decide)
  calc (pyRstrip x).count ';' = (x.reverse.dropWhile isWs).count ';' := by
        unfold pyRstrip; rw [List.count_reverse]
    _ = (x.reverse.takeWhile isWs).count ';' + (x.reverse.dropWhile isWs).count ';' := by
        rw [htw]; omega
    _ = x.reverse.count ';' := by rw [← List.count_append, hsplit]
    _ = x.count ';' := List.count_reverse ..

/-- At least one `;` survives `stripOneTerm` when two were present. -/
theorem semi_mem_stripOneTerm (u : List Char) (h : 2 ≤ u.count ';') :
    (stripOneTerm u).any (fun c => c = ';') = true := by
  have hmem : ';' ∈ stripOneTerm u := by
    unfold stripOneTerm
    by_cases hL : u.getLast? = some ';'
    · rw [if_pos hL]
      have hne : u ≠ [] := by
        intro hnil; rw [hnil] at hL; exact absurd hL (by decide)
      have hu : u.dropLast ++ [u.getLast hne] = u := List.dropLast_append_getLast hne
      have hcount : u.dropLast.count ';' + [u.getLast hne].count ';' = u.count ';' := by
        rw [← List.count_append, hu]
      have hone : [u.getLast hne].count ';' ≤ 1 := by
        calc [u.getLast hne].count ';' ≤ [u.getLast hne].length := List.count_le_length ..
          _ = 1 := rfl
      have : 1 ≤ u.dropLast.count ';' := by omega
      have : 1 ≤ (pyRstrip u.dropLast).count ';' := by
        rw [count_semi_pyRstrip]; omega
      exact List.count_pos_iff.mp (by omega)
    · rw [if_neg hL]
      exact List.count_pos_iff.mp (by omega)
  simp only [List.any_eq_true]
  exact ⟨';', hmem, by decide⟩

/-- Claim C4, amended: the code first strips surrounding whitespace,
then one trailing terminator (and the whitespace before it); it accepts
iff the remainder begins with `select`/`with` case-insensitively and
contains no `;`.  Consequently a text whose stripped form holds two or
more terminators is rejected, and a text whose stripped form does not
begin with `select`/`with` is rejected. -/
theorem C4_amended :
    (∀ s : List Char,
        looks_select_only s =
          ((isPre (cs "select") (lowStr (stripOneTerm (pyStrip s))) ||
            isPre (cs "with") (lowStr (stripOneTerm (pyStrip s)))) &&
           !((stripOneTerm (pyStrip s)).any (fun c => c = ';')))) ∧
    (∀ s : List Char, 2 ≤ (pyStrip s).count ';' → looks_select_only s = false) ∧
    (∀ s : List Char,
        ¬(isPre (cs "select") (lowStr (stripOneTerm (pyStrip s))) = true ∨
            isPre (cs "with") (lowStr (stripOneTerm (pyStrip s))) = true) →
          looks_select_only s = false) := by
  have hgen : ∀ v : List Char,
      (if ¬ (isPre (cs "select") (lowStr v) = true ∨ isPre (cs "with") (lowStr v) = true)
        then false
        else if v.any (fun c => c = ';') = true then false else true) =
      ((isPre (cs "select") (lowStr v) || isPre (cs "with") (lowStr v)) &&
        !(v.any (fun c => c = ';'))) := by
    intro v
    cases hs : isPre (cs "select") (lowStr v) <;>
      cases hw : isPre (cs "with") (lowStr v) <;>
        cases ha : v.any (fun c => c = ';') <;>
          simp [hs, hw, ha]
  have hform : ∀ s : List Char,
      looks_select_only s =
        ((isPre (cs "select") (lowStr (stripOneTerm (pyStrip s))) ||
          isPre (cs "with") (lowStr (stripOneTerm (pyStrip s)))) &&
         !((stripOneTerm (pyStrip s)).any (fun c => c = ';'))) := by
    intro s
    exact hgen (stripOneTerm (pyStrip s))
  refine ⟨hform, ?_, ?_⟩
  · intro s h2
    rw [hform s, semi_mem_stripOneTerm (pyStrip s) h2]
    simp
  · intro s h3
    rw [hform s]
    have ha : isPre (cs "select") (lowStr (stripOneTerm (pyStrip s))) = false := by
      cases h : isPre (cs "select") (lowStr (stripOneTerm (pyStrip s))) with
      | false => rfl
      | true => exact absurd (Or.inl h) h3
    have hb : isPre (cs "with") (lowStr (stripOneTerm (pyStrip s))) = false := by
      cases h : isPre (cs "with") (lowStr (stripOneTerm (pyStrip s))) with
      | false => rfl
      | true => exact absurd (Or.inr h) h3
    rw [ha, hb]
    rfl

/-- Witness for C4: a double statement is rejected, and a text not
starting with `select`/`with` is rejected. -/
theorem C4_witness :
    looks_select_only (cs "select 1; select 2;") = false ∧
      looks_select_only (cs "update t set x = 1") = false :=
  ⟨C4_amended.2.1 _ (by decide), C4_amended.2.2 _ (by decide)⟩

/-! ## Claim C6: rewrite no-ops and idempotence -/

/-- The character a scan at the end of `a` sees as its `\b` context. -/
def lastOpt (a : List Char) (prev : Option Char) : Option Char :=
  match a.getLast? with
  | some x => some x
  | none => prev

theorem lastOpt_cons (c : Char) (as : List Char) (prev : Option Char) :
    lastOpt (c :: as) prev = lastOpt as (some c) := by
  cases as with
  | nil => rfl
  | cons d ds =>
    unfold lastOpt
    simp only [List.getLast?_cons_cons]
    cases h : (d :: ds).getLast? with
    | none => exact absurd h (by simp)
    | some x => rfl

/-- A match at the head of a non-empty text makes the search succeed. -/
theorem anyScan_of_head (m : Option Char → List Char → Bool) (p : Option Char)
    (l : List Char) (hm : m p l = true) (hne : l ≠ []) : anyScan m p l = true := by
  cases l with
  | nil => exact absurd rfl hne
  | cons c rest => simp [anyScan, hm]

/-- A search that succeeds on the suffix `b` (with the correct boundary
context) succeeds on `a ++ b`. -/
theorem anyScan_append (m : Option Char → List Char → Bool) :
    ∀ (a b : List Char) (prev : Option Char),
      anyScan m (lastOpt a prev) b = true → anyScan m prev (a ++ b) = true := by
  intro a
  induction a with
  | nil => intro b prev h; simpa [lastOpt] using h
  | cons c as ih =>
    intro b prev h
    have h2 : anyScan m (some c) (as ++ b) = true := by
      apply ih
      rw [← lastOpt_cons c as prev]
      exact h
    simp [anyScan, h2]

/-- `eatLit` consumes a literal copy of a lower-case pattern. -/
theorem eatLit_self : ∀ (w rest : List Char), (∀ c ∈ w, lowChar c = c) →
    eatLit w (w ++ rest) = some rest := by
  intro w
  induction w with
  | nil => intro rest _; rfl
  | cons c ws ih =>
    intro rest h
    have hc : lowChar c = c := h c (List.mem_cons_self ..)
    simp [eatLit, hc]
    exact ih rest (fun d hd => h d (List.mem_cons_of_mem _ hd))

/-- Dropping a run that wholly satisfies the predicate. -/
theorem dropWhile_append_all (p : Char → Bool) :
    ∀ (a b : List Char), (∀ c ∈ a, p c = true) →
      List.dropWhile p (a ++ b) = List.dropWhile p b := by
  intro a
  induction a with
  | nil => intro b _; rfl
  | cons c as ih =>
    intro b h
    have hc : p c = true := h c (List.mem_cons_self ..)
    simp [List.dropWhile_cons, hc]
    exact ih b (fun d hd => h d (List.mem_cons_of_mem _ hd))

/-- The store-predicate matcher fires on a decomposed occurrence. -/
theorem matchStorePred_of_decomp (ws1 ws2 v post : List Char) (prev : Option Char)
    (hprev : boundaryPrev prev = true)
    (hws1 : ∀ c ∈ ws1, isWs c = true) (hws2 : ∀ c ∈ ws2, isWs c = true)
    (hv : ∀ c ∈ v, c ≠ '\'') :
    matchStorePred prev
      (cs "store_id" ++ (ws1 ++ (cs "=" ++ (ws2 ++ (cs "'" ++ (v ++ (cs "'" ++ post))))))) =
      true := by
  have h1 : eatWsStar (ws1 ++ (cs "=" ++ (ws2 ++ (cs "'" ++ (v ++ (cs "'" ++ post)))))) =
      '=' :: (ws2 ++ (cs "'" ++ (v ++ (cs "'" ++ post)))) := by
    unfold eatWsStar
    rw [dropWhile_append_all isWs _ _ hws1]
    rfl
  have h2 : eatWsStar (ws2 ++ (cs "'" ++ (v ++ (cs "'" ++ post)))) =
      '\'' :: (v ++ (cs "'" ++ post)) := by
    unfold eatWsStar
    rw [dropWhile_append_all isWs _ _ hws2]
    rfl
  have h3 : eatNonQuotesThenQuote (v ++ (cs "'" ++ post)) = some post := by
    have hv2 : ∀ c ∈ v, notQuote c = true := by
      intro c hc
      simp [notQuote, hv c hc]
    unfold eatNonQuotesThenQuote
    rw [dropWhile_append_all notQuote _ _ hv2]
    rfl
  unfold matchStorePred
  rw [hprev, eatLit_self (cs "store_id") _ (by decide)]
  simp only [h1, h2, h3]
  rfl

/-- A decomposed `store_id = '<v>'` occurrence makes the search of
`ensure_store_filter` succeed. -/
theorem findStoreIdPred_of_contains (pre ws1 ws2 v post : List Char)
    (hb : boundaryPrev (lastOpt pre none) = true)
    (hws1 : ∀ c ∈ ws1, isWs c = true) (hws2 : ∀ c ∈ ws2, isWs c = true)
    (hv : ∀ c ∈ v, c ≠ '\'') :
    findStoreIdPred
      (pre ++ (cs "store_id" ++ (ws1 ++ (cs "=" ++ (ws2 ++ (cs "'" ++ (v ++ (cs "'" ++ post)))))))) =
      true := by
  unfold findStoreIdPred
  exact anyScan_append _ pre _ none
    (anyScan_of_head _ _ _ (matchStorePred_of_decomp ws1 ws2 v post _ hb hws1 hws2 hv)
      (by simp [cs]))

/-- The word matcher fires on a decomposed occurrence. -/
theorem matchWord_of_decomp (w post : List Char) (prev : Option Char)
    (hw : ∀ c ∈ w, lowChar c = c) (hprev : boundaryPrev prev = true)
    (hpost : boundaryNext post.head? = true) :
    matchWord w prev (w ++ post) = true := by
  unfold matchWord
  rw [hprev, eatLit_self w post hw]
  dsimp only
  rw [hpost]
  rfl

/-- A decomposed word occurrence makes the word search succeed. -/
theorem hasWord_of_contains (w pre post : List Char)
    (hw : ∀ c ∈ w, lowChar c = c) (hwne : w ≠ [])
    (hb : boundaryPrev (lastOpt pre none) = true)
    (hpost : boundaryNext post.head? = true) :
    hasWord w (pre ++ (w ++ post)) = true := by
  unfold hasWord
  refine anyScan_append _ pre _ none
    (anyScan_of_head _ _ _ (matchWord_of_decomp w post _ hw hb hpost) ?_)
  cases w with
  | nil => exact absurd rfl hwne
  | cons c cs' => simp

/-- Counterexample to claim C6 as stated: a validator-passing statement
on which the full rewrite sequence is not idempotent — the temporal
substitution replaces `now()` by a timestamp literal whose final letters
fuse with the adjacent `limit` token, so the second pass no longer sees
a `LIMIT` and appends another one. -/
theorem C6_counterexample :
    checks4 (cs "select article_no from v_sales_daily where date < now()limit 9") = true ∧
      rewriteAll (cs "S001") (some (cs "2024-12-01"))
          (rewriteAll (cs "S001") (some (cs "2024-12-01"))
            (cs "select article_no from v_sales_daily where date < now()limit 9")) ≠
        rewriteAll (cs "S001") (some (cs "2024-12-01"))
          (cs "select article_no from v_sales_daily where date < now()limit 9") := by
  refine ⟨by decide, by decide⟩

/-- Claim C6, amended: the per-transform no-ops hold — store-scope
injection returns the text exactly when a word-bounded
`store_id = '<value>'` predicate already occurs, and result-size capping
returns the right-stripped text when a word-bounded `LIMIT`, a
`GROUP BY`, or an aggregate call is present — but the full rewrite
sequence is not idempotent in general (see the counterexample). -/
theorem C6_amended :
    (∀ s x pre ws1 ws2 v post : List Char,
        lowStr s =
          pre ++ (cs "store_id" ++ (ws1 ++ (cs "=" ++ (ws2 ++ (cs "'" ++ (v ++ (cs "'" ++ post))))))) →
        boundaryPrev (lastOpt pre none) = true →
        (∀ c ∈ ws1, isWs c = true) → (∀ c ∈ ws2, isWs c = true) →
        (∀ c ∈ v, c ≠ '\'') →
        ensure_store_filter s x = s) ∧
    (∀ (s : List Char) (n : Nat) (pre post : List Char),
        lowStr (pyRstrip s) = pre ++ (cs "limit" ++ post) →
        boundaryPrev (lastOpt pre none) = true →
        boundaryNext post.head? = true →
        ensure_limit s n = pyRstrip s) ∧
    (∀ (s : List Char) (n : Nat) (pre ws post : List Char),
        lowStr (pyRstrip s) = pre ++ (cs "group" ++ (ws ++ (cs "by" ++ post))) →
        boundaryPrev (lastOpt pre none) = true →
        ws ≠ [] → (∀ c ∈ ws, isWs c = true) →
        boundaryNext post.head? = true →
        ensure_limit s n = pyRstrip s) ∧
    (∀ (s : List Char) (n : Nat) (f pre ws post : List Char),
        (f = cs "sum" ∨ f = cs "avg" ∨ f = cs "count" ∨ f = cs "max" ∨ f = cs "min") →
        lowStr (pyRstrip s) = pre ++ (f ++ (ws ++ (cs "(" ++ post))) →
        boundaryPrev (lastOpt pre none) = true →
        (∀ c ∈ ws, isWs c = true) →
        ensure_limit s n = pyRstrip s) := by
  refine ⟨?_, ?_, ?_, ?_⟩
  · intro s x pre ws1 ws2 v post hdec hb hws1 hws2 hv
    have hfind : findStoreIdPred (lowStr s) = true := by
      rw [hdec]
      exact findStoreIdPred_of_contains pre ws1 ws2 v post hb hws1 hws2 hv
    unfold ensure_store_filter
    rw [if_pos hfind]
  · intro s n pre post hdec hb hpost
    have hlim : hasWord (cs "limit") (lowStr (pyRstrip s)) = true := by
      rw [hdec]
      exact hasWord_of_contains (cs "limit") pre post (by decide) (by decide) hb hpost
    unfold ensure_limit
    rw [if_pos hlim]
  · intro s n pre ws post hdec hb hne hws hpost
    have hagg : hasAggregate (lowStr (pyRstrip s)) = true := by
      rw [hdec]
      unfold hasAggregate
      refine anyScan_append _ pre _ none (anyScan_of_head _ _ _ ?_ (by simp [cs]))
      have hgb : matchTwoWords (cs "group") (cs "by") (cs "group" ++ (ws ++ (cs "by" ++ post))) =
          true := by
        unfold matchTwoWords
        rw [eatLit_self (cs "group") _ (by decide)]
        cases ws with
        | nil => exact absurd rfl hne
        | cons w0 ws' =>
          have hw0 : isWs w0 = true := hws w0 (List.mem_cons_self ..)
          have hdrop : List.dropWhile isWs (ws' ++ (cs "by" ++ post)) = cs "by" ++ post := by
            rw [dropWhile_append_all isWs ws' _ (fun d hd => hws d (List.mem_cons_of_mem _ hd))]
            rfl
          simp only [eatWsPlus, List.cons_append, hw0, if_pos]
          rw [hdrop]
          simp only [eatLit_self (cs "by") post (by decide)]
          rw [hpost]
      rw [matchAgg, hb, hgb]
      rfl
    unfold ensure_limit
    by_cases hlim : hasWord (cs "limit") (lowStr (pyRstrip s)) = true
    · rw [if_pos hlim]
    · rw [if_neg hlim, if_pos hagg]
  · intro s n f pre ws post hf hdec hb hws
    have hagg : hasAggregate (lowStr (pyRstrip s)) = true := by
      rw [hdec]
      unfold hasAggregate
      refine anyScan_append _ pre _ none (anyScan_of_head _ _ _ ?_ ?_)
      · have hfn : matchFnCall f (f ++ (ws ++ (cs "(" ++ post))) = true := by
          unfold matchFnCall
          have hfl : ∀ c ∈ f, lowChar c = c := by
            rcases hf with h | h | h | h | h <;> rw [h] <;> decide
          have heat : eatWsStar (ws ++ (cs "(" ++ post)) = '(' :: post := by
            unfold eatWsStar
            rw [dropWhile_append_all isWs ws _ hws]
            rfl
          rw [eatLit_self f _ hfl]
          dsimp only
          rw [heat]
          rfl
        rw [matchAgg, hb]
        rcases hf with h | h | h | h | h <;> rw [h] at hfn ⊢ <;> simp [hfn]
      · rcases hf with h | h | h | h | h <;> rw [h] <;> simp [cs]
    unfold ensure_limit
    by_cases hlim : hasWord (cs "limit") (lowStr (pyRstrip s)) = true
    · rw [if_pos hlim]
    · rw [if_neg hlim, if_pos hagg]

/-- Witness for C6: the four no-op cases at concrete statements (the
trailing blank in the `LIMIT` case shows the right-strip). -/
theorem C6_witness :
    ensure_store_filter (cs "select x from stores where store_id = 'S9'") (cs "S001") =
        cs "select x from stores where store_id = 'S9'" ∧
      ensure_limit (cs "select x from stores limit 5 ") 200 =
        cs "select x from stores limit 5" ∧
      ensure_limit (cs "select brand from v_sales_daily group by brand") 200 =
        cs "select brand from v_sales_daily group by brand" ∧
      ensure_limit (cs "select sum(units_sold) from v_sales_daily") 200 =
        cs "select sum(units_sold) from v_sales_daily" := by
  refine ⟨?_, ?_, ?_, ?_⟩
  · exact C6_amended.1 _ _ (cs "select x from stores where ") [' '] [' '] (cs "s9") []
      (by decide) (by decide) (by decide) (by decide) (by decide)
  · exact (C6_amended.2.1 _ 200 (cs "select x from stores ") (cs " 5")
      (by decide) (by decide) (by decide)).trans (by decide)
  · exact (C6_amended.2.2.1 _ 200 (cs "select brand from v_sales_daily ") [' '] (cs " brand")
      (by decide) (by decide) (by decide) (by decide) (by decide)).trans (by decide)
  · exact (C6_amended.2.2.2 _ 200 (cs "sum") (cs "select ") []
      (cs "units_sold) from v_sales_daily")
      (Or.inl rfl) (by decide) (by decide) (by decide)).trans (by decide)

/-! ## Claims C1 and C5: the execution-and-repair pipeline -/

/-- With all guardrails passing, the trace is the execution phase's. -/
theorem runQueryTrace_guards (store : List Char) (anchor : Option (List Char)) (o : Oracle)
    (h0 : ¬ (extract_sql o.winnerText).getD [] = [])
    (h1 : looks_select_only ((extract_sql o.winnerText).getD []) = true)
    (h2 : contains_bad ((extract_sql o.winnerText).getD []) = false)
    (h3 : mentions_allowed_objects ((extract_sql o.winnerText).getD []) = true)
    (h4 : (columns_exist ((extract_sql o.winnerText).getD [])).1 = true) :
    runQueryTrace store anchor o =
      execPhase store anchor o ((extract_sql o.winnerText).getD []) := by
  unfold runQueryTrace
  rw [if_neg h0, if_neg (not_not_intro h1), if_neg (by simp [h2]),
    if_neg (not_not_intro h3), if_neg (not_not_intro h4)]

/-- Case analysis of one `run_query` call: either the guardrails abort
before any execution, or the winner's extracted SQL passed all four
stages and every executed statement is the rewrite of a text whose
listed re-checks passed. -/
theorem runQueryTrace_shape (store : List Char) (anchor : Option (List Char)) (o : Oracle) :
    runQueryTrace store anchor o = Trace.mk [] 0 0 .aborted false ∨
    (∃ s0, checks4 s0 = true ∧ s0 = (extract_sql o.winnerText).getD [] ∧
      (runQueryTrace store anchor o =
          Trace.mk [rewriteAll store anchor s0] 0 0 .firstOk true ∨
        (∃ f b, checks3 f = true ∧
          runQueryTrace store anchor o =
            Trace.mk [rewriteAll store anchor s0, rewriteAll store anchor f] 1 0 .detPath b) ∨
        (∃ r b, checks3 r = true ∧
          runQueryTrace store anchor o =
            Trace.mk [rewriteAll store anchor s0, rewriteAll store anchor r] 1 1 .llmPath b) ∨
        runQueryTrace store anchor o =
          Trace.mk [rewriteAll store anchor s0] 1 1 .llmAbort false)) := by
  by_cases h0 : (extract_sql o.winnerText).getD [] = []
  · left; unfold runQueryTrace; rw [if_pos h0]
  by_cases h1 : looks_select_only ((extract_sql o.winnerText).getD []) = true
  case neg =>
    left; unfold runQueryTrace
    rw [if_neg h0, if_pos (by simpa using h1)]
  by_cases h2 : contains_bad ((extract_sql o.winnerText).getD []) = true
  case pos =>
    left; unfold runQueryTrace
    rw [if_neg h0, if_neg (not_not_intro h1), if_pos h2]
  by_cases h3 : mentions_allowed_objects ((extract_sql o.winnerText).getD []) = true
  case neg =>
    left; unfold runQueryTrace
    rw [if_neg h0, if_neg (not_not_intro h1), if_neg h2, if_pos (by simpa using h3)]
  by_cases h4 : (columns_exist ((extract_sql o.winnerText).getD [])).1 = true
  case neg =>
    left; unfold runQueryTrace
    rw [if_neg h0, if_neg (not_not_intro h1), if_neg h2, if_neg (not_not_intro h3),
      if_pos (by simpa using h4)]
  have h2' : contains_bad ((extract_sql o.winnerText).getD []) = false := by
    simpa [Bool.not_eq_true] using h2
  have htr := runQueryTrace_guards store anchor o h0 h1 h2' h3 h4
  right
  refine ⟨(extract_sql o.winnerText).getD [], ?_, rfl, ?_⟩
  · simp [checks4, checks3, h1, h2', h3, h4]
  rw [htr]
  unfold execPhase
  cases hexec : o.exec (rewriteAll store anchor ((extract_sql o.winnerText).getD [])) with
  | ok u => left; rfl
  | error e =>
    dsimp only [afterExec]
    cases hrep :
        repair_known_errors (rewriteAll store anchor ((extract_sql o.winnerText).getD [])) e
        with
    | some f =>
      dsimp only [afterRepair]
      by_cases h5 : (decide (f ≠ []) && checks3 f) = true
      · rw [if_pos h5]
        have h5' := h5
        rw [Bool.and_eq_true] at h5'
        cases hexec2 : o.exec (rewriteAll store anchor f) with
        | ok u => right; left; exact ⟨f, true, h5'.2, rfl⟩
        | error e2 => right; left; exact ⟨f, false, h5'.2, rfl⟩
      · rw [if_neg h5]
        unfold llmBranch
        by_cases h6 : (decide ((extract_sql o.repairText).getD [] ≠ []) &&
            checks3 ((extract_sql o.repairText).getD [])) = true
        · rw [if_pos h6]
          have h6' := h6
          rw [Bool.and_eq_true] at h6'
          cases hexec3 :
              o.exec (rewriteAll store anchor ((extract_sql o.repairText).getD [])) with
          | ok u =>
            right; right; left
            exact ⟨(extract_sql o.repairText).getD [], true, h6'.2, rfl⟩
          | error e3 =>
            right; right; left
            exact ⟨(extract_sql o.repairText).getD [], false, h6'.2, rfl⟩
        · rw [if_neg h6]
          right; right; right; rfl
    | none =>
      dsimp only [afterRepair]
      unfold llmBranch
      by_cases h6 : (decide ((extract_sql o.repairText).getD [] ≠ []) &&
          checks3 ((extract_sql o.repairText).getD [])) = true
      · rw [if_pos h6]
        have h6' := h6
        rw [Bool.and_eq_true] at h6'
        cases hexec3 :
            o.exec (rewriteAll store anchor ((extract_sql o.repairText).getD [])) with
        | ok u =>
          right; right; left
          exact ⟨(extract_sql o.repairText).getD [], true, h6'.2, rfl⟩
        | error e3 =>
          right; right; left
          exact ⟨(extract_sql o.repairText).getD [], false, h6'.2, rfl⟩
      · rw [if_neg h6]
        right; right; right; rfl

/-- The trace either aborts in the guardrails or runs the execution
phase on the extracted winner SQL. -/
theorem runQueryTrace_cases2 (store : List Char) (anchor : Option (List Char)) (o : Oracle) :
    runQueryTrace store anchor o = Trace.mk [] 0 0 .aborted false ∨
    runQueryTrace store anchor o =
      execPhase store anchor o ((extract_sql o.winnerText).getD []) := by
  by_cases h0 : (extract_sql o.winnerText).getD [] = []
  · left; unfold runQueryTrace; rw [if_pos h0]
  by_cases h1 : looks_select_only ((extract_sql o.winnerText).getD []) = true
  case neg =>
    left; unfold runQueryTrace
    rw [if_neg h0, if_pos (by simpa using h1)]
  by_cases h2 : contains_bad ((extract_sql o.winnerText).getD []) = true
  case pos =>
    left; unfold runQueryTrace
    rw [if_neg h0, if_neg (not_not_intro h1), if_pos h2]
  by_cases h3 : mentions_allowed_objects ((extract_sql o.winnerText).getD []) = true
  case neg =>
    left; unfold runQueryTrace
    rw [if_neg h0, if_neg (not_not_intro h1), if_neg h2, if_pos (by simpa using h3)]
  by_cases h4 : (columns_exist ((extract_sql o.winnerText).getD [])).1 = true
  case neg =>
    left; unfold runQueryTrace
    rw [if_neg h0, if_neg (not_not_intro h1), if_neg h2, if_neg (not_not_intro h3),
      if_pos (by simpa using h4)]
  right
  exact runQueryTrace_guards store anchor o h0 h1 (by simpa [Bool.not_eq_true] using h2) h3 h4

/-- Claim C1, amended: the four-stage validator runs once, on the
extracted winner text before the rewrites; each repair candidate is
re-checked by only three stages (shape, blocklist, allow-list — not the
column check); every statement handed to the Execution Gateway is the
rewrite of such a validated text, executed without re-validation, so the
executed text itself need not pass the validator (see the
counterexample). -/
theorem C1_amended (store : List Char) (anchor : Option (List Char)) (o : Oracle) :
    (∀ t ∈ (runQueryTrace store anchor o).executed,
        ∃ v, checks3 v = true ∧ t = rewriteAll store anchor v) ∧
    (∀ e1 rest, (runQueryTrace store anchor o).executed = e1 :: rest →
        ∃ v, checks4 v = true ∧ e1 = rewriteAll store anchor v) := by
  rcases runQueryTrace_shape store anchor o with h | ⟨s0, hc4, _, hcase⟩
  · constructor
    · intro t ht
      rw [h] at ht
      simp at ht
    · intro e1 rest hr
      rw [h] at hr
      simp at hr
  · have hc3 : checks3 s0 = true := by
      have h' := hc4
      rw [checks4, Bool.and_eq_true] at h'
      exact h'.1
    rcases hcase with h | ⟨f, b, hf3, h⟩ | ⟨r, b, hr3, h⟩ | h
    · constructor
      · intro t ht
        rw [h] at ht
        simp at ht
        exact ⟨s0, hc3, ht⟩
      · intro e1 rest hr
        rw [h] at hr
        simp at hr
        exact ⟨s0, hc4, hr.1.symm⟩
    · constructor
      · intro t ht
        rw [h] at ht
        simp at ht
        rcases ht with ht | ht
        · exact ⟨s0, hc3, ht⟩
        · exact ⟨f, hf3, ht⟩
      · intro e1 rest hr
        rw [h] at hr
        simp at hr
        exact ⟨s0, hc4, hr.1.symm⟩
    · constructor
      · intro t ht
        rw [h] at ht
        simp at ht
        rcases ht with ht | ht
        · exact ⟨s0, hc3, ht⟩
        · exact ⟨r, hr3, ht⟩
      · intro e1 rest hr
        rw [h] at hr
        simp at hr
        exact ⟨s0, hc4, hr.1.symm⟩
    · constructor
      · intro t ht
        rw [h] at ht
        simp at ht
        exact ⟨s0, hc3, ht⟩
      · intro e1 rest hr
        rw [h] at hr
        simp at hr
        exact ⟨s0, hc4, hr.1.symm⟩

/-- Counterexample to claim C1 as stated: a validator-passing winner
whose rewritten form fails the validator (the missing separator welds
`where` to the alias, leaving the undefined alias `wheres`), yet that
rewritten form is exactly what the pipeline hands to the Execution
Gateway on the first attempt. -/
theorem C1_counterexample :
    checks4 (cs "select s.units_sold from v_sales_daily s where s.is_promo = true") = true ∧
    (runQueryTrace (cs "S001") none
        ⟨cs "select s.units_sold from v_sales_daily s where s.is_promo = true",
          fun _ => .ok (), cs ""⟩).executed =
      [cs "select s.units_sold from v_sales_daily s wheres.store_id = 'S001' AND (s.is_promo = true) LIMIT 200"] ∧
    checks4
      (cs "select s.units_sold from v_sales_daily s wheres.store_id = 'S001' AND (s.is_promo = true) LIMIT 200") =
      false := by
  refine ⟨by decide, by decide, by decide⟩

/-- Witness for C1: the amended theorem applied to the concrete
first-attempt execution of the counterexample's oracle. -/
theorem C1_witness :
    ∃ v, checks3 v = true ∧
      cs "select s.units_sold from v_sales_daily s wheres.store_id = 'S001' AND (s.is_promo = true) LIMIT 200" =
        rewriteAll (cs "S001") none v :=
  (C1_amended (cs "S001") none
      ⟨cs "select s.units_sold from v_sales_daily s where s.is_promo = true",
        fun _ => .ok (), cs ""⟩).1
    _ (by decide)

/-- Claim C5: per `run_query` call there are at most two execution
attempts, at most one deterministic-fix attempt and at most one
model-assisted repair; and when the deterministic fixer does change the
text but the changed text fails re-validation, the pipeline continues
with the model-assisted branch — the deterministic fixer is not run
again (unless the guardrails had already aborted the call). -/
theorem C5_bounded_repair :
    (∀ (store : List Char) (anchor : Option (List Char)) (o : Oracle),
        (runQueryTrace store anchor o).executed.length ≤ 2 ∧
        (runQueryTrace store anchor o).detFixCalls ≤ 1 ∧
        (runQueryTrace store anchor o).llmCalls ≤ 1) ∧
    (∀ (store : List Char) (anchor : Option (List Char)) (o : Oracle) (e f : List Char),
        o.exec (rewriteAll store anchor ((extract_sql o.winnerText).getD [])) = .error e →
        repair_known_errors (rewriteAll store anchor ((extract_sql o.winnerText).getD [])) e =
          some f →
        (decide (f ≠ []) && checks3 f) = false →
        runQueryTrace store anchor o = Trace.mk [] 0 0 .aborted false ∨
        runQueryTrace store anchor o =
          llmBranch store anchor o
            (rewriteAll store anchor ((extract_sql o.winnerText).getD []))) := by
  constructor
  · intro store anchor o
    rcases runQueryTrace_shape store anchor o with h | ⟨s0, _, _, hcase⟩
    · rw [h]; exact ⟨by simp, by simp, by simp⟩
    · rcases hcase with h | ⟨f, b, _, h⟩ | ⟨r, b, _, h⟩ | h <;> rw [h] <;>
        exact ⟨by simp, by simp, by simp⟩
  · intro store anchor o e f hexec hrep hbad
    rcases runQueryTrace_cases2 store anchor o with h | h
    · left; exact h
    · right
      rw [h]
      unfold execPhase
      rw [hexec]
      dsimp only [afterExec]
      rw [hrep]
      dsimp only [afterRepair]
      rw [if_neg (show ¬ ((decide (f ≠ []) && checks3 f) = true) by rw [hbad]; simp)]

/-- Witness for C5: a concrete call in which the deterministic fix
changes the text, the changed text fails the re-run checks (it holds an
internal `;`), and the pipeline ends in the model-assisted branch. -/
theorem C5_witness :
    runQueryTrace (cs "S001") none
        ⟨cs "select p.brand from products p, v_sales_daily s;",
          fun _ => .error (cs "db says no"), cs ""⟩ =
        Trace.mk [] 0 0 .aborted false ∨
      runQueryTrace (cs "S001") none
          ⟨cs "select p.brand from products p, v_sales_daily s;",
            fun _ => .error (cs "db says no"), cs ""⟩ =
        llmBranch (cs "S001") none
          ⟨cs "select p.brand from products p, v_sales_daily s;",
            fun _ => .error (cs "db says no"), cs ""⟩
          (rewriteAll (cs "S001") none
            ((extract_sql
                (cs "select p.brand from products p, v_sales_daily s;")).getD [])) :=
  C5_bounded_repair.2 (cs "S001") none
    ⟨cs "select p.brand from products p, v_sales_daily s;",
      fun _ => .error (cs "db says no"), cs ""⟩
    (cs "db says no")
    (cs "select s.brand from products p, v_sales_daily s; WHERE store_id = 'S001' LIMIT 200")
    rfl (by decide) (by decide)

/-! ## Claims C2 and C7: the model race -/

theorem keyLt_irrefl (a : ℤ × ℚ × ℚ) : ¬ keyLt a a := by
  rintro (h | ⟨_, h | ⟨_, h⟩⟩) <;> exact lt_irrefl _ h

theorem keyLt_trans (a b c : ℤ × ℚ × ℚ) (h1 : keyLt a b) (h2 : keyLt b c) : keyLt a c := by
  rcases h1 with h1 | ⟨e1, h1⟩
  · rcases h2 with h2 | ⟨e2, _⟩
    · exact Or.inl (lt_trans h1 h2)
    · exact Or.inl (e2 ▸ h1)
  · rcases h2 with h2 | ⟨e2, h2⟩
    · exact Or.inl (e1 ▸ h2)
    · refine Or.inr ⟨e1.trans e2, ?_⟩
      rcases h1 with h1 | ⟨f1, h1⟩
      · rcases h2 with h2 | ⟨f2, _⟩
        · exact Or.inl (lt_trans h1 h2)
        · exact Or.inl (f2 ▸ h1)
      · rcases h2 with h2 | ⟨f2, h2⟩
        · exact Or.inl (f1 ▸ h2)
        · exact Or.inr ⟨f1.trans f2, lt_trans h1 h2⟩

theorem keyLt_trichot (a b : ℤ × ℚ × ℚ) : keyLt a b ∨ a = b ∨ keyLt b a := by
  rcases lt_trichotomy a.1 b.1 with h | h | h
  · exact Or.inl (Or.inl h)
  · rcases lt_trichotomy a.2.1 b.2.1 with h' | h' | h'
    · exact Or.inl (Or.inr ⟨h, Or.inl h'⟩)
    · rcases lt_trichotomy a.2.2 b.2.2 with h'' | h'' | h''
      · exact Or.inl (Or.inr ⟨h, Or.inr ⟨h', h''⟩⟩)
      · right; left
        obtain ⟨a1, a2, a3⟩ := a
        obtain ⟨b1, b2, b3⟩ := b
        simp only at h h' h''
        rw [h, h', h'']
      · exact Or.inr (Or.inr (Or.inr ⟨h.symm, Or.inr ⟨h'.symm, h''⟩⟩))
    · exact Or.inr (Or.inr (Or.inr ⟨h.symm, Or.inl h'⟩))
  · exact Or.inr (Or.inr (Or.inl h))

/-- The fold of `pickWinner` never produces a trial strictly above its
seed or any scanned trial. -/
theorem pickFold_min (pref : List Char) :
    ∀ (t : List Trial) (acc : Trial),
      ¬ keyLt (raceKey pref acc)
          (raceKey pref
            (t.foldl (fun w x => if keyLt (raceKey pref x) (raceKey pref w) then x else w) acc)) ∧
      ∀ x ∈ t,
        ¬ keyLt (raceKey pref x)
          (raceKey pref
            (t.foldl (fun w x => if keyLt (raceKey pref x) (raceKey pref w) then x else w) acc)) := by
  intro t
  induction t with
  | nil =>
    intro acc
    exact ⟨keyLt_irrefl _, by simp⟩
  | cons x t ih =>
    intro acc
    simp only [List.foldl_cons]
    by_cases hx : keyLt (raceKey pref x) (raceKey pref acc)
    · rw [if_pos hx]
      obtain ⟨ihacc, ihall⟩ := ih x
      refine ⟨?_, ?_⟩
      · intro hacc
        exact ihacc (keyLt_trans _ _ _ hx hacc)
      · intro y hy
        rcases List.mem_cons.mp hy with hy | hy
        · rw [hy]; exact ihacc
        · exact ihall y hy
    · rw [if_neg hx]
      obtain ⟨ihacc, ihall⟩ := ih acc
      refine ⟨ihacc, ?_⟩
      · intro y hy
        rcases List.mem_cons.mp hy with hy | hy
        · rw [hy]
          intro hlt
          rcases keyLt_trichot (raceKey pref x) (raceKey pref acc) with h | h | h
          · exact hx h
          · exact ihacc (h ▸ hlt)
          · exact ihacc (keyLt_trans _ _ _ h hlt)
        · exact ihall y hy

/-- Claim C7: under either policy the selected winner attains the
lexicographic minimum of the policy's key over the trial list — no trial
compares strictly below it — and on the claim's concrete trial list
under the `cheapest` policy the winner is the second trial. -/
theorem C7_winner_selection :
    (∀ (pref : List Char) (trials : List Trial) (w : Trial),
        pickWinner pref trials = some w →
        ∀ x ∈ trials, ¬ keyLt (raceKey pref x) (raceKey pref w)) ∧
    pickWinner (cs "cheapest")
        [⟨cs "a", 500, 2/1000, 3⟩, ⟨cs "b", 900, 1/1000, 3⟩, ⟨cs "c", 50, 1/10000, 1⟩] =
      some ⟨cs "b", 900, 1/1000, 3⟩ := by
  constructor
  · intro pref trials w hw x hx
    cases trials with
    | nil => exact absurd hw (by simp [pickWinner])
    | cons h t =>
      have hw' : w =
          t.foldl (fun w x => if keyLt (raceKey pref x) (raceKey pref w) then x else w) h := by
        simpa [pickWinner] using hw.symm
      obtain ⟨hacc, hall⟩ := pickFold_min pref t h
      rw [hw']
      rcases List.mem_cons.mp hx with hx | hx
      · rw [hx]; exact hacc
      · exact hall x hx
  · have hk12 : keyLt (raceKey (cs "cheapest") ⟨cs "b", 900, 1/1000, 3⟩)
        (raceKey (cs "cheapest") ⟨cs "a", 500, 2/1000, 3⟩) := by
      unfold raceKey
      rw [if_neg (by decide), if_neg (by decide)]
      refine Or.inr ⟨rfl, Or.inl (by norm_num)⟩
    have hk32 : ¬ keyLt (raceKey (cs "cheapest") ⟨cs "c", 50, 1/10000, 1⟩)
        (raceKey (cs "cheapest") ⟨cs "b", 900, 1/1000, 3⟩) := by
      unfold raceKey
      rw [if_neg (by decide), if_neg (by decide)]
      rintro (h | ⟨e, _⟩)
      · norm_num at h
      · norm_num at e
    unfold pickWinner
    simp only [List.foldl]
    rw [if_pos hk12, if_neg hk32]

/-- Witness for C7: applying the minimality statement to the concrete
race of the claim, against its first trial. -/
theorem C7_witness :
    ¬ keyLt (raceKey (cs "cheapest") ⟨cs "a", 500, 2/1000, 3⟩)
        (raceKey (cs "cheapest") ⟨cs "b", 900, 1/1000, 3⟩) :=
  C7_winner_selection.1 (cs "cheapest")
    [⟨cs "a", 500, 2/1000, 3⟩, ⟨cs "b", 900, 1/1000, 3⟩, ⟨cs "c", 50, 1/10000, 1⟩]
    ⟨cs "b", 900, 1/1000, 3⟩ C7_winner_selection.2 ⟨cs "a", 500, 2/1000, 3⟩ (by simp)

/-- `gather` succeeds, with one result per task, exactly when every
task succeeded. -/
theorem gatherE_ok_iff :
    ∀ l : List (Except (List Char) RaceResult),
      (∃ rs, gatherE l = .ok rs ∧ rs.length = l.length) ↔
        ∀ x ∈ l, ∃ r, x = .ok r := by
  intro l
  induction l with
  | nil =>
    constructor
    · intro _ x hx
      simp at hx
    · intro _
      exact ⟨[], rfl, rfl⟩
  | cons x rest ih =>
    cases x with
    | error e =>
      constructor
      · rintro ⟨rs, hrs, _⟩
        exact absurd hrs (by simp [gatherE])
      · intro hall
        obtain ⟨r, hr⟩ := hall (.error e) (List.mem_cons_self ..)
        exact absurd hr (by simp)
    | ok r =>
      constructor
      · rintro ⟨rs, hrs, hlen⟩
        cases hg : gatherE rest with
        | error e2 =>
          rw [gatherE, hg] at hrs
          exact absurd hrs (by simp [Except.map])
        | ok rs' =>
          rw [gatherE, hg] at hrs
          simp [Except.map] at hrs
          intro y hy
          rcases List.mem_cons.mp hy with hy | hy
          · exact ⟨r, hy⟩
          · refine (ih.mp ⟨rs', hg, ?_⟩) y hy
            rw [← hrs] at hlen
            simpa using hlen
      · intro hall
        obtain ⟨rs', hg, hlen⟩ :=
          ih.mpr (fun y hy => hall y (List.mem_cons_of_mem _ hy))
        refine ⟨r :: rs', ?_, by simp [hlen]⟩
        rw [gatherE, hg]
        rfl

/-- Claim C2, amended: a provider's transport oracle is consulted for at
most four attempts (three backoffs), and when the first four attempts
all fail the provider's call raises the fourth error; the gathered race
then fails as soon as any single provider exhausts its retries — the
sibling results are discarded and no Trial is produced — and the race
yields a winner with one Trial per provider exactly when every provider
settles successfully. -/
theorem C2_race_failure :
    (∀ (provs : List (Nat → Except (List Char) RaceResult)) (pref : List Char),
        (∃ w ts, tryModels provs pref = .ok (w, ts) ∧ ts.length = provs.length) ↔
          ∀ p ∈ provs, ∃ r, callRetry p = .ok r) ∧
    (∀ a1 a2 : Nat → Except (List Char) RaceResult,
        (∀ i, i ≤ 3 → a1 i = a2 i) → callRetry a1 = callRetry a2) ∧
    (∀ atts : Nat → Except (List Char) RaceResult,
        (∀ i, i ≤ 2 → ∃ e, atts i = .error e) → callRetry atts = atts 3) := by
  refine ⟨?_, ?_, ?_⟩
  · intro provs pref
    constructor
    · rintro ⟨w, ts, htm, hlen⟩
      intro p hp
      cases hg : gatherE (provs.map callRetry) with
      | error e =>
        rw [tryModels, hg] at htm
        exact absurd htm (by simp)
      | ok rs =>
        rw [tryModels, hg] at htm
        simp at htm
        have hall := (gatherE_ok_iff (provs.map callRetry)).mp
          ⟨rs, hg, by
            rw [List.length_map]
            rw [← htm.2] at hlen
            simpa using hlen⟩
        exact hall (callRetry p) (List.mem_map_of_mem _ hp)
    · intro hall
      obtain ⟨rs, hg, hlen⟩ := (gatherE_ok_iff (provs.map callRetry)).mpr
        (by
          intro x hx
          obtain ⟨p, hp, hpx⟩ := List.mem_map.mp hx
          obtain ⟨r, hr⟩ := hall p hp
          exact ⟨r, hpx ▸ hr⟩)
      refine ⟨pickWinner pref (rs.map attachScore), rs.map attachScore, ?_, ?_⟩
      · rw [tryModels, hg]
      · rw [List.length_map, hlen, List.length_map]
  · intro a1 a2 h
    simp only [callRetry, callRetryGo, h 0 (by omega), h 1 (by omega), h 2 (by omega),
      h 3 (by omega)]
  · intro atts h
    obtain ⟨e0, h0⟩ := h 0 (by omega)
    obtain ⟨e1, h1⟩ := h 1 (by omega)
    obtain ⟨e2, h2⟩ := h 2 (by omega)
    simp only [callRetry, callRetryGo, h0, h1, h2]

/-- Counterexample to claim C2 as stated: with one exhausted provider
and one successful sibling, the race fails with the exhausted provider's
transport error — the sibling's settled result is discarded and no Trial
(zero-score or otherwise) is produced. -/
theorem C2_counterexample :
    callRetry (fun _ => (.error (cs "boom") : Except (List Char) RaceResult)) =
        .error (cs "boom") ∧
      callRetry (fun _ =>
          (.ok ⟨cs "select * from stores", 10, 0⟩ : Except (List Char) RaceResult)) =
        .ok ⟨cs "select * from stores", 10, 0⟩ ∧
      tryModels
          [fun _ => .error (cs "boom"), fun _ => .ok ⟨cs "select * from stores", 10, 0⟩]
          (cs "cheapest") =
        .error (cs "boom") :=
  ⟨rfl, rfl, rfl⟩

/-- Witness for C2: the amended theorem at a concrete two-provider race
with one always-failing and one always-succeeding transport. -/
theorem C2_witness :
    callRetry (fun _ => (.error (cs "boom") : Except (List Char) RaceResult)) =
        (fun _ => (.error (cs "boom") : Except (List Char) RaceResult)) 3 ∧
      ¬ (∃ w ts,
          tryModels
              [fun _ => .error (cs "boom"),
               fun _ => .ok ⟨cs "select * from stores", 10, 0⟩]
              (cs "cheapest") = .ok (w, ts) ∧
            ts.length = 2) :=
  ⟨C2_race_failure.2.2 _ (fun i _ => ⟨cs "boom", rfl⟩),
    fun hex => by
      obtain ⟨r, hr⟩ :=
        (C2_race_failure.1
            [fun _ => .error (cs "boom"),
             fun _ => .ok ⟨cs "select * from stores", 10, 0⟩]
            (cs "cheapest")).mp hex
          (fun _ => .error (cs "boom")) (List.mem_cons_self ..)
      exact absurd hr (by simp [callRetry, callRetryGo])⟩

end RetailAI
